import Mathlib

/-!
Verification of the lumberjack math-trace core: a shallow embedding of
`math_expression_parser.cpp` (tokenizer, recursive-descent parser, evaluator)
and `math_trace_computer.cpp` (timestamp union, gap validity, computation run),
with theorems settling the specification claims.

Numeric values are modelled by exact rationals: every finite IEEE-754 double is
a rational, and all concrete computations exercised here are exact in binary64
arithmetic as well.  The C math-library functions (`pow`, `sqrt`, ...) are
external to the repository; the evaluator is parameterised over them by the
`CMath` structure, so theorems hold for any implementation of those functions.
-/

namespace Lumberjack

set_option allowUnsafeReducibility true

attribute [local semireducible] Rat.add Rat.sub Rat.mul Rat.inv

/-- The C math-library functions used by the evaluator (`pow`, `sqrt`, `log`,
`exp`, `sin`, `cos`, `tan` from `<cmath>`).  They are external to the
repository, so the evaluator is parameterised over them. -/
structure CMath where
  powFn : ℚ → ℚ → ℚ
  sqrtFn : ℚ → ℚ
  logFn : ℚ → ℚ
  expFn : ℚ → ℚ
  sinFn : ℚ → ℚ
  cosFn : ℚ → ℚ
  tanFn : ℚ → ℚ

/-- Exact rational value of the binary64 constant `M_PI`. -/
def piQ : ℚ := 884279719003555 / 281474976710656

/-- Exact rational value of the binary64 constant `M_E`. -/
def eQ : ℚ := 6121026514868073 / 2251799813685248

/-- A single-quote character as a string, used to build the error messages of
the source verbatim. -/
def sq : String := String.singleton (Char.ofNat 39)

/-- `MathExpressionParser::Token::Type`. -/
inductive TokType where
  | num
  | var
  | op
  | func
  | lparen
  | rparen
  | comma
  | endTok
  deriving DecidableEq

/-- `MathExpressionParser::Token`: type tag, source text, and numeric value
(meaningful for number tokens). -/
structure Token where
  type : TokType
  value : String
  numberValue : ℚ := 0
  deriving DecidableEq

/-- The end-marker token appended by `tokenize`. -/
def endToken : Token := { type := .endTok, value := "" }

/-- `MathExpressionParser::isOperator`. -/
def isOperatorChar (c : Char) : Bool :=
  c = '+' || c = '-' || c = '*' || c = '/' || c = '^'

/-- Digit-string to natural number (the integral or fractional digit run of a
numeric literal). -/
def digitsToNat (ds : List Char) : ℕ :=
  ds.foldl (fun acc c => acc * 10 + (c.toNat - 48)) 0

/-- `QString::toDouble` on a scanned numeric literal (digits and dots): a
single optional dot yields the decimal value, anything malformed (two or more
dots, or a lone dot) yields `0`, as `toDouble` returns `0.0` on failure. -/
def numCharsToRat (cs : List Char) : ℚ :=
  match cs.splitOn '.' with
  | [ip] => (digitsToNat ip : ℚ)
  | [ip, fp] =>
      if ip = [] ∧ fp = [] then 0
      else (digitsToNat ip : ℚ) + (digitsToNat fp : ℚ) / ((10 : ℚ) ^ fp.length)
  | _ => 0

/-- `QString::trimmed`: strip leading and trailing whitespace. -/
def trimChars (cs : List Char) : List Char :=
  ((cs.dropWhile Char.isWhitespace).reverse.dropWhile Char.isWhitespace).reverse

/-- Scanner predicate for the numeric-literal run. -/
def isNumChar (c : Char) : Bool := c.isDigit || c = '.'

/-- Scanner predicate for the identifier tail (letters, digits, underscore). -/
def isIdentChar (c : Char) : Bool := c.isAlphanum || c = '_'

/-- Classify a scanned identifier: fixed function set, the constants `pi` and
`e`, otherwise a variable (`MathExpressionParser::tokenize`, identifier case). -/
def classifyIdent (name : String) : Token :=
  if name = "abs" ∨ name = "sqrt" ∨ name = "log" ∨ name = "exp" ∨
     name = "sin" ∨ name = "cos" ∨ name = "tan" then
    { type := .func, value := name }
  else if name = "pi" then { type := .num, value := name, numberValue := piQ }
  else if name = "e" then { type := .num, value := name, numberValue := eQ }
  else { type := .var, value := name }

/-- Character-by-character scan of `MathExpressionParser::tokenize`, carrying
the current position `i` for error messages.  The scan consumes at least one
character per step, so the structural fuel parameter — supplied by `tokenize`
as the input length plus one — never runs out. -/
def tokenizeAux (fuel : ℕ) (cs : List Char) (i : ℕ) : Except String (List Token) :=
  match fuel with
  | 0 => .error "fuel exhausted"
  | fuel + 1 =>
    match cs with
    | [] => .ok [endToken]
    | c :: rest =>
      if c.isWhitespace then
        tokenizeAux fuel rest (i + 1)
      else if isNumChar c then
        let ds := c :: rest.takeWhile isNumChar
        (tokenizeAux fuel (rest.dropWhile isNumChar) (i + ds.length)).map
          (fun ts => { type := .num, value := String.mk ds,
                       numberValue := numCharsToRat ds } :: ts)
      else if c.isAlpha then
        let ds := c :: rest.takeWhile isIdentChar
        (tokenizeAux fuel (rest.dropWhile isIdentChar) (i + ds.length)).map
          (fun ts => classifyIdent (String.mk ds) :: ts)
      else if isOperatorChar c then
        (tokenizeAux fuel rest (i + 1)).map
          (fun ts => { type := .op, value := String.singleton c } :: ts)
      else if c = '(' then
        (tokenizeAux fuel rest (i + 1)).map
          (fun ts => { type := .lparen, value := String.singleton c } :: ts)
      else if c = ')' then
        (tokenizeAux fuel rest (i + 1)).map
          (fun ts => { type := .rparen, value := String.singleton c } :: ts)
      else if c = ',' then
        (tokenizeAux fuel rest (i + 1)).map
          (fun ts => { type := .comma, value := String.singleton c } :: ts)
      else
        .error ("Invalid character at position " ++ toString i ++ ": " ++
                String.singleton c)

/-- `MathExpressionParser::tokenize`: scan the trimmed input and append the
end marker; an invalid character aborts with position and character. -/
def tokenize (expression : String) : Except String (List Token) :=
  let cs := trimChars expression.toList
  tokenizeAux (cs.length + 1) cs 0

/-- `MathExpressionParser::OperatorType` (the binary operators; unary negate
is the separate `Node.neg`). -/
inductive BinOp where
  | add
  | sub
  | mul
  | div
  | pow
  deriving DecidableEq

/-- `MathExpressionParser::FunctionType`. -/
inductive Func where
  | abs
  | sqrt
  | log
  | exp
  | sin
  | cos
  | tan
  deriving DecidableEq

/-- `MathExpressionParser::ExpressionNode`: the expression tree.  The source
uses one struct with a type tag and `left`/`right`/`argument` children; the
tagged variants here are exactly the populated shapes (`OP_NEGATE` carries
only a left child, functions only an argument). -/
inductive Node where
  | num (v : ℚ)
  | var (name : String)
  | binop (op : BinOp) (l r : Node)
  | neg (a : Node)
  | call (f : Func) (arg : Node)
  deriving DecidableEq

mutual

/-- `MathExpressionParser::parseExpression`: `term (('+'|'-') term)*`,
left-associative.  Recursive descent is modelled with a fuel parameter;
`parse` supplies fuel ample for any token list, so the fuel branch is never
reached on the inputs considered here. -/
def parseExpressionFn (fuel : ℕ) (tokens : List Token) (pos : ℕ) :
    Except String (Node × ℕ) :=
  match fuel with
  | 0 => .error "fuel exhausted"
  | fuel + 1 => do
    let (left, p1) ← parseTermFn fuel tokens pos
    parseExprLoop fuel tokens left p1

termination_by structural fuel

/-- The `while` loop of `parseExpression` over `+`/`-`. -/
def parseExprLoop (fuel : ℕ) (tokens : List Token) (left : Node) (pos : ℕ) :
    Except String (Node × ℕ) :=
  match fuel with
  | 0 => .error "fuel exhausted"
  | fuel + 1 =>
    let t := tokens.getD pos endToken
    if pos < tokens.length ∧ t.type = .op ∧ (t.value = "+" ∨ t.value = "-") then do
      let (right, p2) ← parseTermFn fuel tokens (pos + 1)
      let node := Node.binop (if t.value = "+" then .add else .sub) left right
      parseExprLoop fuel tokens node p2
    else
      .ok (left, pos)

termination_by structural fuel

/-- `MathExpressionParser::parseTerm`: `power (('*'|'/') power)*`,
left-associative. -/
def parseTermFn (fuel : ℕ) (tokens : List Token) (pos : ℕ) :
    Except String (Node × ℕ) :=
  match fuel with
  | 0 => .error "fuel exhausted"
  | fuel + 1 => do
    let (left, p1) ← parsePowerFn fuel tokens pos
    parseTermLoop fuel tokens left p1

termination_by structural fuel

/-- The `while` loop of `parseTerm` over `*`/`/`. -/
def parseTermLoop (fuel : ℕ) (tokens : List Token) (left : Node) (pos : ℕ) :
    Except String (Node × ℕ) :=
  match fuel with
  | 0 => .error "fuel exhausted"
  | fuel + 1 =>
    let t := tokens.getD pos endToken
    if pos < tokens.length ∧ t.type = .op ∧ (t.value = "*" ∨ t.value = "/") then do
      let (right, p2) ← parsePowerFn fuel tokens (pos + 1)
      let node := Node.binop (if t.value = "*" then .mul else .div) left right
      parseTermLoop fuel tokens node p2
    else
      .ok (left, pos)

termination_by structural fuel

/-- `MathExpressionParser::parsePower`: `unary ('^' power)?`; the right-hand
side recurses into `parsePower` itself, making `^` right-associative. -/
def parsePowerFn (fuel : ℕ) (tokens : List Token) (pos : ℕ) :
    Except String (Node × ℕ) :=
  match fuel with
  | 0 => .error "fuel exhausted"
  | fuel + 1 => do
    let (left, p1) ← parseUnaryFn fuel tokens pos
    let t := tokens.getD p1 endToken
    if p1 < tokens.length ∧ t.type = .op ∧ t.value = "^" then do
      let (right, p2) ← parsePowerFn fuel tokens (p1 + 1)
      .ok (Node.binop .pow left right, p2)
    else
      .ok (left, p1)

termination_by structural fuel

/-- `MathExpressionParser::parseUnary`: `'-' unary | primary`. -/
def parseUnaryFn (fuel : ℕ) (tokens : List Token) (pos : ℕ) :
    Except String (Node × ℕ) :=
  match fuel with
  | 0 => .error "fuel exhausted"
  | fuel + 1 =>
    let t := tokens.getD pos endToken
    if pos < tokens.length ∧ t.type = .op ∧ t.value = "-" then do
      let (operand, p1) ← parseUnaryFn fuel tokens (pos + 1)
      .ok (Node.neg operand, p1)
    else
      parsePrimaryFn fuel tokens pos

termination_by structural fuel

/-- `MathExpressionParser::parsePrimary`: numbers, variables, function calls
and parenthesised expressions; anything else throws, modelled by
`Except.error` with the thrown message. -/
def parsePrimaryFn (fuel : ℕ) (tokens : List Token) (pos : ℕ) :
    Except String (Node × ℕ) :=
  match fuel with
  | 0 => .error "fuel exhausted"
  | fuel + 1 =>
    if tokens.length ≤ pos then
      .error "Unexpected end of expression"
    else
      let t := tokens.getD pos endToken
      if t.type = .num then
        .ok (Node.num t.numberValue, pos + 1)
      else if t.type = .var then
        .ok (Node.var t.value, pos + 1)
      else if t.type = .func then
        let funcName := t.value
        let pos := pos + 1
        if tokens.length ≤ pos ∨ (tokens.getD pos endToken).type ≠ .lparen then
          .error ("Expected " ++ sq ++ "(" ++ sq ++ " after function name")
        else do
          let (argument, p1) ← parseExpressionFn fuel tokens (pos + 1)
          if tokens.length ≤ p1 ∨ (tokens.getD p1 endToken).type ≠ .rparen then
            .error ("Expected " ++ sq ++ ")" ++ sq ++ " after function argument")
          else
            if funcName = "abs" then .ok (Node.call .abs argument, p1 + 1)
            else if funcName = "sqrt" then .ok (Node.call .sqrt argument, p1 + 1)
            else if funcName = "log" then .ok (Node.call .log argument, p1 + 1)
            else if funcName = "exp" then .ok (Node.call .exp argument, p1 + 1)
            else if funcName = "sin" then .ok (Node.call .sin argument, p1 + 1)
            else if funcName = "cos" then .ok (Node.call .cos argument, p1 + 1)
            else if funcName = "tan" then .ok (Node.call .tan argument, p1 + 1)
            else .error ("Unknown function: " ++ funcName)
      else if t.type = .lparen then do
        let (node, p1) ← parseExpressionFn fuel tokens (pos + 1)
        if tokens.length ≤ p1 ∨ (tokens.getD p1 endToken).type ≠ .rparen then
          .error ("Expected " ++ sq ++ ")" ++ sq)
        else
          .ok (node, p1 + 1)
      else
        .error ("Unexpected token: " ++ t.value)

termination_by structural fuel
end

/-- The engine state after a `parse` call: the stored tree (`rootNode`, empty
on a reset) and the last error message. -/
structure MathExpressionParser where
  rootNode : Option Node := none
  errorMessage : String := ""
  deriving DecidableEq

/-- Ample fuel for the recursive descent over a given token list: the call
depth is bounded by the grammar height times the number of tokens. -/
def parseFuel (tokens : List Token) : ℕ := 10 * tokens.length + 10

/-- `MathExpressionParser::parse`: clear prior state, reject empty input,
tokenize, run the recursive descent, and require all tokens consumed up to the
end marker.  Note that on the trailing-token path the source sets the error
and returns `false` without resetting `rootNode`, so the partially parsed tree
is retained; this model reproduces that. -/
def parse (expression : String) : MathExpressionParser × Bool :=
  if trimChars expression.toList = [] then
    ({ rootNode := none, errorMessage := "Empty expression" }, false)
  else
    match tokenize expression with
    | .error msg => ({ rootNode := none, errorMessage := msg }, false)
    | .ok tokens =>
      match parseExpressionFn (parseFuel tokens) tokens 0 with
      | .error msg => ({ rootNode := none, errorMessage := msg }, false)
      | .ok (node, pos) =>
        if pos < tokens.length ∧ (tokens.getD pos endToken).type ≠ .endTok then
          ({ rootNode := some node,
             errorMessage := "Unexpected token at position " ++ toString pos ++
                             ": " ++ (tokens.getD pos endToken).value }, false)
        else
          ({ rootNode := some node, errorMessage := "" }, true)

/-- `MathExpressionParser::evaluateNode`: tree walk with the variable-value
mapping; `none` models the `false` return (evaluation failure). -/
def evaluateNode (m : CMath) (vars : List (String × ℚ)) : Node → Option ℚ
  | .num v => some v
  | .var x => List.lookup x vars
  | .neg a => (evaluateNode m vars a).map (fun v => -v)
  | .binop op l r => do
    let lv ← evaluateNode m vars l
    let rv ← evaluateNode m vars r
    match op with
    | .add => some (lv + rv)
    | .sub => some (lv - rv)
    | .mul => some (lv * rv)
    | .div => if rv = 0 then none else some (lv / rv)
    | .pow => some (m.powFn lv rv)
  | .call f a => do
    let av ← evaluateNode m vars a
    match f with
    | .abs => some |av|
    | .sqrt => if av < 0 then none else some (m.sqrtFn av)
    | .log => if av ≤ 0 then none else some (m.logFn av)
    | .exp => some (m.expFn av)
    | .sin => some (m.sinFn av)
    | .cos => some (m.cosFn av)
    | .tan => some (m.tanFn av)

/-- `MathExpressionParser::evaluate`: fails when no expression is loaded,
otherwise walks the stored tree. -/
def evaluate (m : CMath) (p : MathExpressionParser) (vars : List (String × ℚ)) :
    Option ℚ :=
  match p.rootNode with
  | none => none
  | some n => evaluateNode m vars n

/-- `MathExpressionParser::collectVariables`: first-encounter-order collection
of distinct variable names (node first, then left, right, argument). -/
def collectVariables : Node → List String → List String
  | .num _, acc => acc
  | .var x, acc => if acc.contains x then acc else acc ++ [x]
  | .binop _ l r, acc => collectVariables r (collectVariables l acc)
  | .neg a, acc => collectVariables a acc
  | .call _ a, acc => collectVariables a acc

/-- `MathExpressionParser::getVariables`. -/
def getVariables (p : MathExpressionParser) : List String :=
  match p.rootNode with
  | none => []
  | some n => collectVariables n []

/-- A concrete `CMath` instance for closed computations: `pow` is exact
integer exponentiation (agreeing with binary64 `pow` on the small integer
inputs exercised here); the transcendental functions never influence any
claim and are pinned to `0`. -/
def ratCMath : CMath where
  powFn a b := if b.den = 1 ∧ 0 ≤ b.num then a ^ b.num.toNat else 0
  sqrtFn _ := 0
  logFn _ := 0
  expFn _ := 0
  sinFn _ := 0
  cosFn _ := 0
  tanFn _ := 0

/-- The evaluation-failure witness predicate: the tree contains a variable
absent from the mapping, a division whose divisor evaluates to exactly `0`, a
`sqrt` whose argument evaluates to a negative value, or a `log` whose argument
evaluates to a non-positive value (the four guarded returns of
`MathExpressionParser::evaluateNode`). -/
def hasBadNode (m : CMath) (vars : List (String × ℚ)) : Node → Bool
  | .num _ => false
  | .var x => (List.lookup x vars).isNone
  | .neg a => hasBadNode m vars a
  | .binop op l r =>
    hasBadNode m vars l || hasBadNode m vars r ||
      (op == .div && evaluateNode m vars r == some 0)
  | .call f a =>
    hasBadNode m vars a ||
      (f == .sqrt &&
        (match evaluateNode m vars a with
         | some v => decide (v < 0)
         | none => false)) ||
      (f == .log &&
        (match evaluateNode m vars a with
         | some v => decide (v ≤ 0)
         | none => false))

/-- Modelled from the spec: the external `DataSeries` capability
(`data_series.hpp` is not among the analysed sources).  A series is its
ordered list of timestamp/value samples. -/
structure DataSeries where
  data : List (ℚ × ℚ)
  deriving DecidableEq

/-- Modelled from the spec: `size()`. -/
def DataSeries.size (s : DataSeries) : ℕ := s.data.length

/-- Modelled from the spec: `timestamp_at(index)`; out-of-range reads do not
occur on the code paths modelled here. -/
def DataSeries.getTimestamp (s : DataSeries) (i : ℕ) : ℚ :=
  (s.data.getD i (0, 0)).1

/-- Modelled from the spec: `index_for_timestamp(t)` has insertion-point
semantics — the first index whose timestamp is `≥ t`, equal to `size()` when
`t` exceeds all entries and `0` when it precedes all entries. -/
def DataSeries.getIndexForTimestamp (s : DataSeries) (t : ℚ) : ℕ :=
  s.data.findIdx (fun p => t ≤ p.1)

/-- Modelled from the spec: `value_at(t, INTERPOLATE)` — linear interpolation
between the bracketing samples; at or beyond a boundary the boundary sample's
value is used (boundary behaviour is outside the core's concern). -/
def DataSeries.getValueAtTime (s : DataSeries) (t : ℚ) : ℚ :=
  let idx := s.getIndexForTimestamp t
  if idx = 0 then (s.data.getD 0 (0, 0)).2
  else if s.size ≤ idx then (s.data.getD (s.size - 1) (0, 0)).2
  else
    let before := s.data.getD (idx - 1) (0, 0)
    let after := s.data.getD idx (0, 0)
    before.2 + (after.2 - before.2) * ((t - before.1) / (after.1 - before.1))

/-- The loop body of `MathTraceComputer::isTimestampValid` for one series:
`false` when the insertion index is at a boundary and the distance to the
nearest actual sample exceeds `maxGapSize`, or when the bracketing samples
around the insertion index are more than `maxGapSize` apart. -/
def seriesGapCheck (timestamp : ℚ) (s : DataSeries) (maxGapSize : ℚ) : Bool :=
  let idx := s.getIndexForTimestamp timestamp
  if idx = 0 ∨ s.size ≤ idx then
    if idx = 0 ∧ 0 < s.size then
      |timestamp - s.getTimestamp 0| ≤ maxGapSize
    else if s.size ≤ idx ∧ 0 < s.size then
      |timestamp - s.getTimestamp (s.size - 1)| ≤ maxGapSize
    else
      true
  else
    s.getTimestamp idx - s.getTimestamp (idx - 1) ≤ maxGapSize

/-- `MathTraceComputer::isTimestampValid`: a timestamp passes for the whole
collection when no single series rejects it. -/
def isTimestampValid (timestamp : ℚ) (series : List DataSeries)
    (maxGapSize : ℚ) : Bool :=
  series.all fun s => seriesGapCheck timestamp s maxGapSize

/-- Ordered insertion without duplicates: one `std::set<double>::insert`. -/
def insertSorted (t : ℚ) : List ℚ → List ℚ
  | [] => [t]
  | x :: xs =>
    if t < x then t :: x :: xs
    else if t = x then x :: xs
    else x :: insertSorted t xs

/-- Every timestamp of every bound series, in supply order (the collection
loop of `MathTraceComputer::collectTimestamps`). -/
def allTimestamps (series : List (String × DataSeries)) : List ℚ :=
  series.flatMap (fun sv => sv.2.data.map (·.1))

/-- `MathTraceComputer::collectTimestamps`: insert every timestamp of every
input series into a `std::set` (sorted, duplicates ignored) and read the set
out in order. -/
def collectTimestamps (series : List (String × DataSeries)) : List ℚ :=
  (allTimestamps series).foldl (fun acc t => insertSorted t acc) []

/-- `QMap::operator[]` for the variable mapping (guarded by the containment
check in `startComputation`, so the default is never observed). -/
def lookupSeries (mapping : List (String × DataSeries)) (v : String) :
    DataSeries :=
  (mapping.lookup v).getD ⟨[]⟩

/-- The output `MathDataSeries`: its stored points plus whether
`update()` (finalisation) has been invoked on it. -/
structure MathDataSeries where
  data : List (ℚ × ℚ)
  updated : Bool
  deriving DecidableEq

/-- The Qt signals emitted by `MathTraceComputer` (`computationStarted`,
`progressUpdated`, `computationComplete`, `computationFailed`) — the complete
notification surface declared in `math_trace_computer.hpp`. -/
inductive Event where
  | started
  | progress (percent : ℤ)
  | complete
  | failed (error : String)
  deriving DecidableEq

/-- The request snapshot captured by `MathTraceComputer::compute`. -/
structure Request where
  expression : String
  variableMapping : List (String × DataSeries)
  maxGapSize : ℚ

/-- The loop-local state of `MathTraceComputer::startComputation`: points
written so far, `lastProgress`, the two tallies, and the progress values
emitted so far (in emission order). -/
structure LoopState where
  out : List (ℚ × ℚ)
  lastProgress : ℤ
  validPoints : ℕ
  skippedPoints : ℕ
  progressReports : List ℤ
  deriving DecidableEq

/-- State at loop entry (`lastProgress = -1`, zero tallies, cleared output). -/
def initialLoopState : LoopState :=
  { out := [], lastProgress := -1, validPoints := 0, skippedPoints := 0,
    progressReports := [] }

/-- The per-variable interpolation loop: look each required variable's series
up, interpolate at `t`, and abandon the point as soon as one value is NaN or
Inf.  Special IEEE values cannot arise among exact rationals, so the
NaN-or-Inf test is the parameter `badVal`, keeping every theorem valid for an
arbitrary classification. -/
def interpolateValues (badVal : ℚ → Bool)
    (mapping : List (String × DataSeries)) (t : ℚ) :
    List String → Option (List (String × ℚ))
  | [] => some []
  | v :: rest =>
    let value := (lookupSeries mapping v).getValueAtTime t
    if badVal value then none
    else
      match interpolateValues badVal mapping t rest with
      | none => none
      | some vs => some ((v, value) :: vs)

/-- The data shared by every iteration of the computation loop. -/
structure LoopParams where
  m : CMath
  badVal : ℚ → Bool
  parser : MathExpressionParser
  requiredVars : List String
  variableMapping : List (String × DataSeries)
  maxGapSize : ℚ
  n : ℕ

/-- One iteration of the main loop of `MathTraceComputer::startComputation`
at index `i` and timestamp `t`: gap-validity check, interpolation, expression
evaluation and result check (each failure counting a skipped point), then the
point is appended and progress possibly emitted at a 10%-boundary. -/
def stepPoint (P : LoopParams) (i : ℕ) (t : ℚ) (st : LoopState) : LoopState :=
  if !(isTimestampValid t (P.variableMapping.map (·.2)) P.maxGapSize) then
    { st with skippedPoints := st.skippedPoints + 1 }
  else
    match interpolateValues P.badVal P.variableMapping t P.requiredVars with
    | none => { st with skippedPoints := st.skippedPoints + 1 }
    | some variableValues =>
      match evaluate P.m P.parser variableValues with
      | none => { st with skippedPoints := st.skippedPoints + 1 }
      | some result =>
        if P.badVal result then
          { st with skippedPoints := st.skippedPoints + 1 }
        else
          let st1 := { st with out := st.out ++ [(t, result)],
                               validPoints := st.validPoints + 1 }
          let progress : ℤ := ((i * 100) / P.n : ℕ)
          if progress ≠ st1.lastProgress ∧ progress % 10 = 0 then
            { st1 with progressReports := st1.progressReports ++ [progress],
                       lastProgress := progress }
          else
            st1

/-- The main loop with the per-iteration cancellation check: processing stops
(returning `true`) the moment the flag is observed, before the pending
timestamp is processed. -/
def runLoop (P : LoopParams) (cancel : ℕ → Bool) (i : ℕ) :
    List ℚ → LoopState → LoopState × Bool
  | [], st => (st, false)
  | t :: rest, st =>
    if cancel i then (st, true)
    else runLoop P cancel (i + 1) rest (stepPoint P i t st)

/-- The main loop without cancellation (used to state what a stopped run has
already produced). -/
def runSteps (P : LoopParams) (i : ℕ) : List ℚ → LoopState → LoopState
  | [], st => st
  | t :: rest, st => runSteps P (i + 1) rest (stepPoint P i t st)

/-- The diagnostic message of the degenerate-result failure. -/
def degenerateMsg (skippedPoints : ℕ) : String :=
  "Expression produced no valid results (" ++ toString skippedPoints ++
    " points skipped) - check for division by zero or invalid operations"

/-- The fail-fast prefix of `MathTraceComputer::startComputation`: parse
error, a free variable with no binding, an empty bound input series, or an
empty timestamp union, in source order, each with its message.  `none` means
the run reaches the clearing of the output series and the iteration loop. -/
def checkFailure (req : Request) : Option String :=
  if (parse req.expression).2 = false then
    some ("Failed to parse expression: " ++
      (parse req.expression).1.errorMessage)
  else
    match (getVariables (parse req.expression).1).find?
        (fun v => (req.variableMapping.lookup v).isNone) with
    | some v => some ("Variable " ++ sq ++ v ++ sq ++ " not found in mapping")
    | none =>
      match (getVariables (parse req.expression).1).find?
          (fun v => (lookupSeries req.variableMapping v).size = 0) with
      | some v =>
        some ("Input series for variable " ++ sq ++ v ++ sq ++ " is empty")
      | none =>
        if (collectTimestamps req.variableMapping).isEmpty then
          some "No timestamps found in input series"
        else
          none

/-- The loop parameters a request gives rise to. -/
def loopParamsOf (m : CMath) (badVal : ℚ → Bool) (req : Request) : LoopParams :=
  { m := m, badVal := badVal, parser := (parse req.expression).1,
    requiredVars := getVariables (parse req.expression).1,
    variableMapping := req.variableMapping, maxGapSize := req.maxGapSize,
    n := (collectTimestamps req.variableMapping).length }

/-- `MathTraceComputer::startComputation`: emit `computationStarted`, run the
fail-fast checks, clear the output series, iterate the timestamp union with
the cancellation flag polled once per timestamp, call `update()` after the
loop, and report the terminal signal.  The result is the emitted signal
sequence together with the final output series. -/
def startComputation (m : CMath) (badVal : ℚ → Bool) (cancel : ℕ → Bool)
    (req : Request) (outputSeries : MathDataSeries) :
    List Event × MathDataSeries :=
  match checkFailure req with
  | some msg => ([.started, .failed msg], outputSeries)
  | none =>
    let res := runLoop (loopParamsOf m badVal req) cancel 0
      (collectTimestamps req.variableMapping) initialLoopState
    if res.2 then
      (.started :: res.1.progressReports.map Event.progress ++
         [.failed "Computation cancelled"],
       { data := res.1.out, updated := outputSeries.updated })
    else if res.1.validPoints = 0 then
      (.started :: res.1.progressReports.map Event.progress ++
         [.failed (degenerateMsg res.1.skippedPoints)],
       { data := res.1.out, updated := true })
    else
      (.started :: res.1.progressReports.map Event.progress ++
         [.progress 100, .complete],
       { data := res.1.out, updated := true })

/-- The loop state after the first `k` timestamps of the union have been
processed without interruption. -/
def loopStateAfter (m : CMath) (badVal : ℚ → Bool) (req : Request) (k : ℕ) :
    LoopState :=
  runSteps (loopParamsOf m badVal req) 0
    ((collectTimestamps req.variableMapping).take k) initialLoopState

/-- The values carried by the `progressUpdated` signals of an emission
sequence, in order. -/
def progressValues (events : List Event) : List ℤ :=
  events.filterMap fun e =>
    match e with
    | .progress q => some q
    | _ => none

/-- The per-series validity condition exactly as claim C8 words it: a
timestamp at or outside the series' first or last sample is judged by its
distance to that boundary sample; otherwise the two samples around the
insertion position must be at most `maxGapSize` apart.  Stated from the
claim's words, to be compared against `isTimestampValid` from the source. -/
def claimGapValid (t : ℚ) (s : DataSeries) (g : ℚ) : Bool :=
  if t ≤ s.getTimestamp 0 then
    |t - s.getTimestamp 0| ≤ g
  else if s.getTimestamp (s.size - 1) ≤ t then
    |t - s.getTimestamp (s.size - 1)| ≤ g
  else
    s.getTimestamp (s.getIndexForTimestamp t) -
        s.getTimestamp (s.getIndexForTimestamp t - 1) ≤ g

/-- Declarative per-series gap validity as the code actually decides it on a
sorted non-empty series: distance to the first sample when the timestamp is
at or before it, distance to the last sample when strictly after it, and
otherwise the width of the bracketing interval `(ts(i-1), ts(i)]` that
contains the timestamp. -/
def gapOkInSeries (t : ℚ) (s : DataSeries) (g : ℚ) : Prop :=
  (t ≤ s.getTimestamp 0 → |t - s.getTimestamp 0| ≤ g) ∧
  (s.getTimestamp (s.size - 1) < t → |t - s.getTimestamp (s.size - 1)| ≤ g) ∧
  (∀ i, i < s.size → 0 < i → s.getTimestamp (i - 1) < t → t ≤ s.getTimestamp i →
    s.getTimestamp i - s.getTimestamp (i - 1) ≤ g)

instance (t g : ℚ) (s : DataSeries) : Decidable (gapOkInSeries t s g) := by
  unfold gapOkInSeries
  infer_instance

/-- The invariant carried through the computation loop at iteration `i`: the
progress values emitted so far are strictly increasing multiples of ten below
`100`, `lastProgress` is the last emitted value (or the initial `-1`), and it
stems from an earlier iteration. -/
def progressInv (n i : ℕ) (st : LoopState) : Prop :=
  List.Chain' (· < ·) st.progressReports ∧
  (∀ q ∈ st.progressReports, q % 10 = 0 ∧ 0 ≤ q ∧ q < 100) ∧
  (st.progressReports ≠ [] →
    st.progressReports.getLast? = some st.lastProgress) ∧
  (st.lastProgress = -1 ∨
    ∃ j, j < i ∧ j < n ∧ st.lastProgress = ((j * 100) / n : ℕ))

/-- The constantly-false NaN-or-Inf classification (exact rationals are
always finite). -/
def noneBad : ℚ → Bool := fun _ => false

/-- A cancellation flag that is never set. -/
def noCancel : ℕ → Bool := fun _ => false

/-- A cancellation flag observed set from the second loop iteration on. -/
def cancelFrom1 : ℕ → Bool := fun i => 1 ≤ i

/-- A cancellation flag set before the loop starts. -/
def cancelAll : ℕ → Bool := fun _ => true

/-- Ten samples at timestamps `0..9` (all gaps `1`). -/
def tenSeries : DataSeries :=
  ⟨[(0, 1), (1, 1), (2, 1), (3, 1), (4, 1), (5, 1), (6, 1), (7, 1), (8, 1),
    (9, 1)]⟩

/-- A request whose union has ten timestamps, every point valid. -/
def reqTen : Request := ⟨"x", [("x", tenSeries)], 1000⟩

/-- A request whose expression divides by an always-zero series: every union
timestamp is skipped. -/
def reqDegen : Request :=
  ⟨"x/y", [("x", ⟨[(0, 1), (10, 2)]⟩), ("y", ⟨[(0, 0), (10, 0)]⟩)], 1000⟩

/-- A request whose expression does not parse (trailing operator). -/
def reqParseError : Request := ⟨"1 +", [], 1000⟩

/-- A request completing with two output points. -/
def reqTwoPoints : Request := ⟨"x", [("x", ⟨[(0, 1), (10, 2)]⟩)], 1000⟩

/-- A request completing with one output point. -/
def reqOnePoint : Request := ⟨"x", [("x", ⟨[(0, 5)]⟩)], 1000⟩

/-- The spec's gap example: samples at `0, 10, 2000, 2010`. -/
def gapSeries : DataSeries := ⟨[(0, 1), (10, 1), (2000, 1), (2010, 1)]⟩

/-- Two samples `2000` apart. -/
def pairSeries : DataSeries := ⟨[(0, 1), (2000, 1)]⟩

/-- An empty, not yet finalised output series. -/
def outEmpty : MathDataSeries := ⟨[], false⟩

/-- An output series holding one stale point. -/
def outSeven : MathDataSeries := ⟨[(7, 7)], false⟩

/-- The spec's union example, input A. -/
def unionA : DataSeries := ⟨[(0, 1), (10, 1), (20, 1)]⟩

/-- The spec's union example, input B. -/
def unionB : DataSeries := ⟨[(5, 1), (15, 1), (25, 1)]⟩

/-- C6: for every successfully parsed expression tree and every variable-value
mapping, `evaluate` fails (returns no value, throwing nothing and producing no
partial result — modelled by `Option`) if and only if the tree contains a
variable absent from the mapping, a division whose divisor evaluates to
exactly `0`, a `sqrt` applied to a negative value, or a `log` applied to a
non-positive value; every other node evaluation — including `pow`, whose
result is surfaced as a value whatever it is — succeeds. -/
theorem evaluate_fails_iff_domain_error (m : CMath) (vars : List (String × ℚ))
    (n : Node) (lastError : String) :
    (evaluate m ⟨some n, lastError⟩ vars).isSome = true ↔
      hasBadNode m vars n = false := by
  show (evaluateNode m vars n).isSome = true ↔ hasBadNode m vars n = false
  induction n with
  | num v => simp [evaluateNode, hasBadNode]
  | var x => cases h : List.lookup x vars <;> simp [evaluateNode, hasBadNode, h]
  | neg a ih =>
    cases h : evaluateNode m vars a <;> simp_all [evaluateNode, hasBadNode]
  | binop op l r ihl ihr =>
    cases hl : evaluateNode m vars l <;> cases hr : evaluateNode m vars r <;>
      cases op <;> simp_all [evaluateNode, hasBadNode]
  | call f a ih =>
    cases ha : evaluateNode m vars a <;> cases f <;>
      simp_all [evaluateNode, hasBadNode]

/-- C5: the recursive-descent parser realises the five-level precedence
grammar: `2+3*4 = 14`, `(2+3)*4 = 20`, `10-3-2 = 5` (left-associative
subtraction), and `2^3^2` parses as `2^(3^2)` and evaluates to `512` for any
math library whose `pow` satisfies `pow(3,2) = 9` and `pow(2,9) = 512` (as
binary64 `pow` does). -/
theorem parser_precedence_associativity (m : CMath)
    (h32 : m.powFn 3 2 = 9) (h29 : m.powFn 2 9 = 512) :
    evaluate m (parse "2+3*4").1 [] = some 14 ∧
    evaluate m (parse "(2+3)*4").1 [] = some 20 ∧
    evaluate m (parse "10-3-2").1 [] = some 5 ∧
    (parse "2^3^2").1.rootNode =
      some (.binop .pow (.num 2) (.binop .pow (.num 3) (.num 2))) ∧
    evaluate m (parse "2^3^2").1 [] = some 512 := by
  have h1 : (parse "2+3*4").1 =
      ⟨some (.binop .add (.num 2) (.binop .mul (.num 3) (.num 4))), ""⟩ := by decide
  have h2 : (parse "(2+3)*4").1 =
      ⟨some (.binop .mul (.binop .add (.num 2) (.num 3)) (.num 4)), ""⟩ := by decide
  have h3 : (parse "10-3-2").1 =
      ⟨some (.binop .sub (.binop .sub (.num 10) (.num 3)) (.num 2)), ""⟩ := by decide
  have h4 : (parse "2^3^2").1 =
      ⟨some (.binop .pow (.num 2) (.binop .pow (.num 3) (.num 2))), ""⟩ := by decide
  refine ⟨?_, ?_, ?_, ?_, ?_⟩ <;> simp only [h1, h2, h3, h4] <;>
    simp [evaluate, evaluateNode] <;> norm_num [h32, h29]

/-- Witness for `parser_precedence_associativity` at the concrete instance
`ratCMath`. -/
theorem parser_precedence_associativity_witness :
    evaluate ratCMath (parse "2^3^2").1 [] = some 512 :=
  (parser_precedence_associativity ratCMath (by decide) (by decide)).2.2.2.2

/-- C2 (code bug): on the trailing-token error path `parse` returns `false`
but does not reset `rootNode`, so the partially parsed tree is retained and a
subsequent `evaluate` call succeeds.  Concretely, `parse "1 2"` fails with
"Unexpected token at position 1: 2", yet the engine keeps the tree for `1` and
`evaluate` afterwards returns `1`, contradicting the specified
"no expression loaded" state. -/
theorem parse_trailing_tokens_retains_tree :
    (parse "1 2").2 = false ∧
    (parse "1 2").1.errorMessage = "Unexpected token at position 1: 2" ∧
    (parse "1 2").1.rootNode = some (.num 1) ∧
    evaluate ratCMath (parse "1 2").1 [] = some 1 := by
  refine ⟨by decide, by decide, by decide, by decide⟩

theorem mem_insertSorted (t y : ℚ) (l : List ℚ) :
    y ∈ insertSorted t l ↔ y = t ∨ y ∈ l := by
  induction l with
  | nil => simp [insertSorted]
  | cons x xs ih =>
    simp only [insertSorted]
    split_ifs with h1 h2
    · simp [List.mem_cons]
    · subst h2; simp [List.mem_cons]
    · simp [List.mem_cons, ih]; tauto

theorem sorted_insertSorted (t : ℚ) (l : List ℚ) (h : l.Sorted (· < ·)) :
    (insertSorted t l).Sorted (· < ·) := by
  induction l with
  | nil => simp [insertSorted]
  | cons x xs ih =>
    rw [List.sorted_cons] at h
    obtain ⟨hx, hxs⟩ := h
    simp only [insertSorted]
    split_ifs with h1 h2
    · refine List.sorted_cons.mpr ⟨?_, List.sorted_cons.mpr ⟨hx, hxs⟩⟩
      intro b hb
      rcases List.mem_cons.mp hb with rfl | hb
      · exact h1
      · exact lt_trans h1 (hx b hb)
    · exact List.sorted_cons.mpr ⟨hx, hxs⟩
    · refine List.sorted_cons.mpr ⟨?_, ih hxs⟩
      intro b hb
      rcases (mem_insertSorted t b xs).mp hb with rfl | hb
      · exact lt_of_le_of_ne (not_lt.mp h1) (Ne.symm h2)
      · exact hx b hb

theorem sorted_foldl_insert (l : List ℚ) : ∀ acc : List ℚ, acc.Sorted (· < ·) →
    (l.foldl (fun a t => insertSorted t a) acc).Sorted (· < ·) := by
  induction l with
  | nil => intro acc h; simpa using h
  | cons x xs ih => intro acc h; simpa using ih _ (sorted_insertSorted x acc h)

theorem mem_foldl_insert (y : ℚ) (l : List ℚ) : ∀ acc : List ℚ,
    (y ∈ l.foldl (fun a t => insertSorted t a) acc ↔ y ∈ l ∨ y ∈ acc) := by
  induction l with
  | nil => simp
  | cons x xs ih =>
    intro acc
    simp only [List.foldl_cons, ih, mem_insertSorted, List.mem_cons]
    tauto

theorem sorted_eq_of_mem_iff {l1 l2 : List ℚ} (h1 : l1.Sorted (· < ·))
    (h2 : l2.Sorted (· < ·)) (h : ∀ x, x ∈ l1 ↔ x ∈ l2) : l1 = l2 :=
  List.eq_of_perm_of_sorted
    ((List.perm_ext_iff_of_nodup h1.nodup h2.nodup).mpr h) h1 h2

theorem mem_collectTimestamps (s : List (String × DataSeries)) (t : ℚ) :
    t ∈ collectTimestamps s ↔ ∃ sv ∈ s, t ∈ sv.2.data.map Prod.fst := by
  rw [collectTimestamps, mem_foldl_insert]
  simp [allTimestamps, List.mem_flatMap]

/-- C7: for every non-empty collection of bound input series, the constructed
timestamp sequence is sorted strictly ascending (hence duplicate-free), its
members are exactly the timestamps occurring in some bound series, and it is
invariant under reordering of the supplied series. -/
theorem timestamp_union_spec (series : List (String × DataSeries))
    (_hne : series ≠ []) :
    (collectTimestamps series).Sorted (· < ·) ∧
    (∀ t : ℚ, t ∈ collectTimestamps series ↔
       ∃ sv ∈ series, t ∈ sv.2.data.map Prod.fst) ∧
    ∀ series2, series.Perm series2 →
      collectTimestamps series = collectTimestamps series2 := by
  refine ⟨sorted_foldl_insert _ _ (by simp), mem_collectTimestamps series, ?_⟩
  intro series2 hperm
  have hmem : ∀ x : ℚ,
      x ∈ collectTimestamps series ↔ x ∈ collectTimestamps series2 := by
    intro x
    rw [mem_collectTimestamps, mem_collectTimestamps]
    constructor
    · rintro ⟨sv, hsv, hx⟩; exact ⟨sv, hperm.mem_iff.mp hsv, hx⟩
    · rintro ⟨sv, hsv, hx⟩; exact ⟨sv, hperm.mem_iff.mpr hsv, hx⟩
  exact sorted_eq_of_mem_iff (sorted_foldl_insert _ _ (by simp))
    (sorted_foldl_insert _ _ (by simp)) hmem

/-- Witness for `timestamp_union_spec`: inputs `[0,10,20]` and `[5,15,25]`
produce exactly `[0,5,10,15,20,25]`, sorted, in either supply order. -/
theorem timestamp_union_spec_witness :
    collectTimestamps [("a", unionA), ("b", unionB)] = [0, 5, 10, 15, 20, 25] ∧
    (collectTimestamps [("a", unionA), ("b", unionB)]).Sorted (· < ·) ∧
    collectTimestamps [("a", unionA), ("b", unionB)] =
      collectTimestamps [("b", unionB), ("a", unionA)] :=
  ⟨by decide,
   (timestamp_union_spec [("a", unionA), ("b", unionB)] (by decide)).1,
   (timestamp_union_spec [("a", unionA), ("b", unionB)] (by decide)).2.2 _
     (List.Perm.swap _ _ _)⟩

theorem getTimestamp_eq_get (s : DataSeries) (i : ℕ) (hi : i < s.size) :
    s.getTimestamp i = (s.data.get ⟨i, hi⟩).1 := by
  simp only [DataSeries.getTimestamp]
  rw [List.getD_eq_getElem _ _ hi]
  simp

theorem ts_strict_mono (s : DataSeries)
    (hs : (s.data.map Prod.fst).Sorted (· < ·)) {i j : ℕ}
    (hij : i < j) (hj : j < s.size) : s.getTimestamp i < s.getTimestamp j := by
  rw [getTimestamp_eq_get s i (lt_trans hij hj), getTimestamp_eq_get s j hj]
  have hp : List.Pairwise (fun a b : ℚ × ℚ => a.1 < b.1) s.data :=
    (List.pairwise_map).mp hs
  exact List.pairwise_iff_get.mp hp ⟨i, lt_trans hij hj⟩ ⟨j, hj⟩ hij

theorem ts_mono (s : DataSeries)
    (hs : (s.data.map Prod.fst).Sorted (· < ·)) {i j : ℕ}
    (hij : i ≤ j) (hj : j < s.size) : s.getTimestamp i ≤ s.getTimestamp j := by
  rcases lt_or_eq_of_le hij with h | rfl
  · exact le_of_lt (ts_strict_mono s hs h hj)
  · exact le_refl _

theorem ts_lt_of_lt_index (s : DataSeries) (t : ℚ) (j : ℕ)
    (hj : j < s.getIndexForTimestamp t) : s.getTimestamp j < t := by
  rw [DataSeries.getIndexForTimestamp] at hj
  have hjs : j < s.size :=
    lt_of_lt_of_le hj (List.findIdx_le_length _)
  have h := List.not_of_lt_findIdx hj
  rw [getTimestamp_eq_get s j hjs]
  simp only [decide_eq_false_iff_not, not_le] at h
  simpa using h

theorem le_ts_index (s : DataSeries) (t : ℚ)
    (h : s.getIndexForTimestamp t < s.size) :
    t ≤ s.getTimestamp (s.getIndexForTimestamp t) := by
  have h2 : s.data.findIdx (fun q => decide (t ≤ q.1)) < s.data.length := h
  have hg := @List.findIdx_getElem _ _ _ h2
  rw [getTimestamp_eq_get s _ h]
  simpa using hg

theorem seriesGapCheck_iff (t g : ℚ) (s : DataSeries)
    (hsort : (s.data.map Prod.fst).Sorted (· < ·)) (hne : s.data ≠ []) :
    seriesGapCheck t s g = true ↔ gapOkInSeries t s g := by
  have hsz : 0 < s.size := List.length_pos.mpr hne
  by_cases hz : s.getIndexForTimestamp t = 0
  · have ht0 : t ≤ s.getTimestamp 0 := by
      have h := le_ts_index s t (by rw [hz]; exact hsz)
      rwa [hz] at h
    rw [seriesGapCheck]
    simp only [hz, hsz, true_or, or_true, if_true, true_and, and_true, if_pos,
      eq_self_iff_true, decide_eq_true_eq]
    constructor
    · intro hb
      refine ⟨fun _ => hb, ?_, ?_⟩
      · intro hlast
        exact absurd hlast (not_lt.mpr
          (le_trans ht0 (ts_mono s hsort (Nat.zero_le _) (by omega))))
      · intro i hi h0i hbef _
        exact absurd hbef (not_lt.mpr
          (le_trans ht0 (ts_mono s hsort (Nat.zero_le _) (by omega))))
    · intro hg2
      exact hg2.1 ht0
  · by_cases hge : s.size ≤ s.getIndexForTimestamp t
    · have hlast : s.getTimestamp (s.size - 1) < t :=
        ts_lt_of_lt_index s t (s.size - 1) (by omega)
      rw [seriesGapCheck]
      simp only [hz, hge, hsz, false_or, if_true, false_and, if_false,
        true_and, and_true, decide_eq_true_eq, if_pos, if_neg]
      constructor
      · intro hb
        refine ⟨?_, fun _ => hb, ?_⟩
        · intro ht0
          exact absurd hlast (not_lt.mpr
            (le_trans ht0 (ts_mono s hsort (Nat.zero_le _) (by omega))))
        · intro i hi h0i hbef haft
          have hch : t < t := lt_of_le_of_lt
            (le_trans haft (ts_mono s hsort (by omega) (by omega))) hlast
          exact absurd hch (lt_irrefl t)
      · intro hg2
        exact hg2.2.1 hlast
    · have h0 : 0 < s.getIndexForTimestamp t := Nat.pos_of_ne_zero hz
      have hilt : s.getIndexForTimestamp t < s.size := not_le.mp hge
      have hbef : s.getTimestamp (s.getIndexForTimestamp t - 1) < t :=
        ts_lt_of_lt_index s t _ (by omega)
      have haft : t ≤ s.getTimestamp (s.getIndexForTimestamp t) :=
        le_ts_index s t hilt
      rw [seriesGapCheck]
      simp only [hz, hge, false_or, if_false, decide_eq_true_eq, if_neg,
        not_false_iff]
      constructor
      · intro hb
        refine ⟨?_, ?_, ?_⟩
        · intro ht0
          exact absurd hbef (not_lt.mpr
            (le_trans ht0 (ts_mono s hsort (Nat.zero_le _) (by omega))))
        · intro hlast
          exact absurd hlast (not_lt.mpr (le_trans haft
            (ts_mono s hsort (by omega) (by omega))))
        · intro i hi h0i hb2 ha2
          have hieq : i = s.getIndexForTimestamp t := by
            by_contra hne2
            rcases Nat.lt_or_ge i (s.getIndexForTimestamp t) with hlt | hge2
            · exact absurd ha2 (not_le.mpr (ts_lt_of_lt_index s t i hlt))
            · have hgt : s.getIndexForTimestamp t < i :=
                lt_of_le_of_ne hge2 (Ne.symm hne2)
              have hle : t ≤ s.getTimestamp (i - 1) :=
                le_trans haft (ts_mono s hsort (by omega) (by omega))
              exact absurd hb2 (not_lt.mpr hle)
          rw [hieq]
          exact hb
      · intro hg2
        exact hg2.2.2 _ hilt h0 hbef haft

/-- C8 (amended): for sorted non-empty bound series, a timestamp is used iff
it is valid in every series, where validity in one series is: at or before the
first sample, distance to the first sample at most `maxGapSize`; strictly
after the last sample, distance to the last sample at most `maxGapSize`;
otherwise the bracketing samples `ts(i-1) < t ≤ ts(i)` around the insertion
index are at most `maxGapSize` apart.  (The claim's "at or outside the first
or last sample" clause is wrong for a timestamp equal to the last sample of a
multi-sample series, which the code judges by the gap between the last two
samples — see the counterexample.) -/
theorem gap_validity_characterisation (t g : ℚ) (series : List DataSeries)
    (hs : ∀ s ∈ series, (s.data.map Prod.fst).Sorted (· < ·) ∧ s.data ≠ []) :
    isTimestampValid t series g = true ↔ ∀ s ∈ series, gapOkInSeries t s g := by
  rw [isTimestampValid, List.all_eq_true]
  constructor
  · intro h s hsmem
    exact (seriesGapCheck_iff t g s (hs s hsmem).1 (hs s hsmem).2).mp (h s hsmem)
  · intro h s hsmem
    exact (seriesGapCheck_iff t g s (hs s hsmem).1 (hs s hsmem).2).mpr (h s hsmem)

/-- Counterexample to C8 as stated: for the series `[0, 2000]` with
`maxGapSize = 1000`, the timestamp `2000` is at the series' last sample, so
the claim's boundary clause (distance `0` to that boundary sample) declares it
valid — but the code judges it by the gap between the last two samples and
rejects it. -/
theorem gap_claim_boundary_counterexample :
    claimGapValid 2000 pairSeries 1000 = true ∧
    isTimestampValid 2000 [pairSeries] 1000 = false := by decide

/-- Witness for `gap_validity_characterisation` on the spec's example series
`[0, 10, 2000, 2010]` with `maxGapSize = 1000`. -/
theorem gap_validity_characterisation_witness :
    isTimestampValid 5 [gapSeries] 1000 = true ∧
    isTimestampValid 1000 [gapSeries] 1000 = false ∧
    isTimestampValid 2005 [gapSeries] 1000 = true := by
  refine ⟨?_, by decide, by decide⟩
  apply (gap_validity_characterisation 5 1000 [gapSeries] (by decide)).mpr
  intro s hs
  rcases List.mem_singleton.mp hs with rfl
  decide

theorem index_of_sample (s : DataSeries)
    (hsort : (s.data.map Prod.fst).Sorted (· < ·)) (i : ℕ) (hi : i < s.size) :
    s.getIndexForTimestamp (s.getTimestamp i) = i := by
  refine le_antisymm ?_ ?_
  · by_contra hlt
    push_neg at hlt
    exact absurd (ts_lt_of_lt_index s _ i hlt) (lt_irrefl _)
  · by_contra hlt
    push_neg at hlt
    have h1 : s.getIndexForTimestamp (s.getTimestamp i) < s.size :=
      lt_trans hlt hi
    have h2 := le_ts_index s (s.getTimestamp i) h1
    have h3 := ts_strict_mono s hsort hlt hi
    exact absurd h2 (not_le.mpr h3)

/-- C10: a timestamp that is an actual sample of a sorted bound series at
index `i > 0` is judged by the gap between samples `i-1` and `i`, so it is
valid exactly when that gap is within `maxGapSize`; a real data point can
therefore be skipped (witness: `[0, 2000]` with `maxGapSize = 1000` rejects
its own sample `2000`). -/
theorem sample_timestamp_can_be_invalid (s : DataSeries) (g : ℚ) (i : ℕ)
    (hsort : (s.data.map Prod.fst).Sorted (· < ·)) (h0 : 0 < i)
    (hi : i < s.size) :
    isTimestampValid (s.getTimestamp i) [s] g = true ↔
      s.getTimestamp i - s.getTimestamp (i - 1) ≤ g := by
  have hidx := index_of_sample s hsort i hi
  rw [isTimestampValid]
  simp only [List.all_cons, List.all_nil, Bool.and_true]
  rw [seriesGapCheck]
  simp [hidx, h0.ne', not_le.mpr hi, Nat.not_le.mpr hi]

/-- Witness for `sample_timestamp_can_be_invalid`: the sample `2000` of
`[0, 2000]` is itself invalid under `maxGapSize = 1000`. -/
theorem sample_timestamp_can_be_invalid_witness :
    isTimestampValid (pairSeries.getTimestamp 1) [pairSeries] 1000 = false := by
  have h := sample_timestamp_can_be_invalid pairSeries 1000 1 (by decide)
    (by decide) (by decide)
  have hn : ¬(pairSeries.getTimestamp 1 - pairSeries.getTimestamp (1 - 1) ≤
      (1000 : ℚ)) := by decide
  exact Bool.eq_false_iff.mpr (fun ht => hn (h.mp ht))

/-- C9: a run that fails before the iteration loop begins — parse error, a
free variable with no binding, an empty bound input series, or an empty
timestamp union — leaves the output series completely unchanged (neither
cleared nor appended to), reporting only `started` then `failed`; clearing
happens only after all four structural checks pass. -/
theorem early_failure_leaves_output_untouched (m : CMath) (badVal : ℚ → Bool)
    (cancel : ℕ → Bool) (req : Request) (outputSeries : MathDataSeries)
    (h : (parse req.expression).2 = false ∨
      (∃ v ∈ getVariables (parse req.expression).1,
        (req.variableMapping.lookup v).isNone) ∨
      (∃ v ∈ getVariables (parse req.expression).1,
        (lookupSeries req.variableMapping v).size = 0) ∨
      collectTimestamps req.variableMapping = []) :
    (startComputation m badVal cancel req outputSeries).2 = outputSeries ∧
    ∃ msg, (startComputation m badVal cancel req outputSeries).1 =
      [Event.started, Event.failed msg] := by
  have hcf : checkFailure req ≠ none := by
    rw [checkFailure]
    by_cases hp : (parse req.expression).2 = false
    · simp [hp]
    · rw [if_neg hp]
      cases hf1 : (getVariables (parse req.expression).1).find?
          (fun v => (req.variableMapping.lookup v).isNone) with
      | some v => simp
      | none =>
        cases hf2 : (getVariables (parse req.expression).1).find?
            (fun v => decide ((lookupSeries req.variableMapping v).size = 0)) with
        | some v => simp
        | none =>
          rcases h with h1 | h2 | h3 | h4
          · exact absurd h1 hp
          · obtain ⟨v, hv, hnone⟩ := h2
            have := List.find?_eq_none.mp hf1 v hv
            simp [hnone] at this
          · obtain ⟨v, hv, hzero⟩ := h3
            have := List.find?_eq_none.mp hf2 v hv
            simp [hzero] at this
          · simp [h4]
  obtain ⟨msg, hmsg⟩ := Option.ne_none_iff_exists'.mp hcf
  rw [startComputation, hmsg]
  exact ⟨rfl, msg, rfl⟩

/-- Witness for `early_failure_leaves_output_untouched`: a parse error leaves
the stale output point in place. -/
theorem early_failure_leaves_output_untouched_witness :
    (startComputation ratCMath noneBad noCancel reqParseError outSeven).2 =
      outSeven :=
  (early_failure_leaves_output_untouched ratCMath noneBad noCancel
    reqParseError outSeven (Or.inl (by decide))).1


theorem runLoop_stops (P : LoopParams) (cancel : ℕ → Bool) :
    ∀ (l : List ℚ) (i k : ℕ) (st : LoopState), i ≤ k → k < i + l.length →
      cancel k = true → (∀ j, i ≤ j → j < k → cancel j = false) →
      runLoop P cancel i l st = (runSteps P i (l.take (k - i)) st, true) := by
  intro l
  induction l with
  | nil => intro i k st _ hk _ _; simp at hk; omega
  | cons t rest ih =>
    intro i k st hik hk hck hmin
    by_cases hci : cancel i = true
    · have hki : k = i := by
        by_contra hne
        have hik2 : i < k := lt_of_le_of_ne hik (Ne.symm hne) 
        exact absurd hci (by simp [hmin i (le_refl i) hik2])
      subst hki
      simp [runLoop, hci, runSteps]
    · have hik2 : i < k := by
        rcases lt_or_eq_of_le hik with h | rfl
        · exact h
        · exact absurd hck hci
      have hstep := ih (i + 1) k (stepPoint P i t st) (by omega)
        (by simpa [Nat.add_comm, Nat.add_assoc, Nat.add_left_comm] using hk)
        hck (fun j hj1 hj2 => hmin j (by omega) hj2)
      rw [runLoop]
      simp only [Bool.not_eq_true] at hci
      rw [if_neg (by simp [hci])]
      rw [hstep]
      have htake : (t :: rest).take (k - i) = t :: rest.take (k - (i + 1)) := by
        have : k - i = (k - (i + 1)) + 1 := by omega
        rw [this, List.take_succ_cons]
      rw [htake, runSteps]

theorem runLoop_no_cancel (P : LoopParams) (cancel : ℕ → Bool) :
    ∀ (l : List ℚ) (i : ℕ) (st : LoopState),
      (∀ j, i ≤ j → j < i + l.length → cancel j = false) →
      runLoop P cancel i l st = (runSteps P i l st, false) := by
  intro l
  induction l with
  | nil => intro i st _; simp [runLoop, runSteps]
  | cons t rest ih =>
    intro i st hnc
    rw [runLoop, runSteps]
    rw [if_neg (by simp [hnc i (le_refl i) (by simp)])]
    exact ih (i + 1) (stepPoint P i t st) (fun j h1 h2 =>
      hnc j (by omega) (by simp only [List.length_cons]; omega))



/-- C1 (amended): whenever the cancellation flag is first observed set at
iteration `k` before the loop finishes, the run stops before processing union
timestamp `k` and reports cancellation through the `computationFailed`
notification with the message "Computation cancelled" (no distinct Cancelled
signal exists); the points already written — exactly those produced by the
first `k` iterations — remain in the output series, which is not finalised. -/
theorem cancellation_stops_and_keeps_points (m : CMath) (badVal : ℚ → Bool)
    (cancel : ℕ → Bool) (req : Request) (outputSeries : MathDataSeries) (k : ℕ)
    (hok : checkFailure req = none) (hk : cancel k = true)
    (hmin : ∀ j, j < k → cancel j = false)
    (hlt : k < (collectTimestamps req.variableMapping).length) :
    (startComputation m badVal cancel req outputSeries).1 =
      Event.started ::
        (loopStateAfter m badVal req k).progressReports.map Event.progress ++
        [Event.failed "Computation cancelled"] ∧
    (startComputation m badVal cancel req outputSeries).2 =
      { data := (loopStateAfter m badVal req k).out,
        updated := outputSeries.updated } := by
  rw [startComputation, hok]
  have hstop := runLoop_stops (loopParamsOf m badVal req) cancel
    (collectTimestamps req.variableMapping) 0 k initialLoopState
    (Nat.zero_le k) (by simpa using hlt) hk (fun j _ hj => hmin j hj)
  simp only [hstop]
  simp [loopStateAfter]


/-- Counterexample to C1 as stated: a cancelled run and a genuinely failed
run both terminate in the same `Event.failed` notification — the notification
surface of `math_trace_computer.hpp` has no separate cancelled signal, so the
Cancelled outcome is not distinguished from the Failed outcome (only the
message text differs). -/
theorem cancelled_reported_via_failed_signal :
    (startComputation ratCMath noneBad cancelAll reqTen outEmpty).1 =
      [Event.started, Event.failed "Computation cancelled"] ∧
    (startComputation ratCMath noneBad noCancel reqParseError outEmpty).1 =
      [Event.started,
       Event.failed "Failed to parse expression: Unexpected token: "] := by
  constructor
  · decide
  · decide


/-- Witness for `cancellation_stops_and_keeps_points`: cancelling after the
first iteration of a ten-point run keeps the one point already written. -/
theorem cancellation_stops_witness :
    (startComputation ratCMath noneBad cancelFrom1 reqTen outSeven).1 =
      [Event.started, Event.progress 0, Event.failed "Computation cancelled"] ∧
    (startComputation ratCMath noneBad cancelFrom1 reqTen outSeven).2 =
      ⟨[(0, 1)], false⟩ := by
  have h := cancellation_stops_and_keeps_points ratCMath noneBad cancelFrom1
    reqTen outSeven 1 (by decide) (by decide)
    (fun j hj => by
      have hj0 : j = 0 := by omega
      subst hj0
      rfl)
    (by decide)
  exact ⟨h.1.trans (by decide), h.2.trans (by decide)⟩


theorem stepPoint_tally (P : LoopParams) (i : ℕ) (t : ℚ) (st : LoopState) :
    (stepPoint P i t st).validPoints + (stepPoint P i t st).skippedPoints =
      st.validPoints + st.skippedPoints + 1 := by
  rw [stepPoint]
  repeat' split
  all_goals simp_arith
  all_goals (split <;> simp_arith)

theorem runSteps_tally (P : LoopParams) :
    ∀ (l : List ℚ) (i : ℕ) (st : LoopState),
      (runSteps P i l st).validPoints + (runSteps P i l st).skippedPoints =
        st.validPoints + st.skippedPoints + l.length := by
  intro l
  induction l with
  | nil => intro i st; simp [runSteps]
  | cons t rest ih =>
    intro i st
    rw [runSteps, ih (i + 1) (stepPoint P i t st), stepPoint_tally]
    simp only [List.length_cons]
    omega


/-- C3 (amended): a run that completes its loop always finalises the output
series (`update()` runs before the zero-check); the valid and skipped tallies
sum to the union size; if zero points were written it reports `Failed` with
the skipped-point count in the message — so an expression skipped at every
union timestamp yields `Failed` with skip count equal to the union size — and
otherwise it reports `progress 100` then `Completed`, a notification that
carries no counts. -/
theorem completion_reporting (m : CMath) (badVal : ℚ → Bool) (req : Request)
    (outputSeries : MathDataSeries) (cancel : ℕ → Bool)
    (hok : checkFailure req = none) (hnc : ∀ i, cancel i = false) :
    (startComputation m badVal cancel req outputSeries).2 =
      { data := (loopStateAfter m badVal req
          (collectTimestamps req.variableMapping).length).out,
        updated := true } ∧
    (loopStateAfter m badVal req
        (collectTimestamps req.variableMapping).length).validPoints +
      (loopStateAfter m badVal req
        (collectTimestamps req.variableMapping).length).skippedPoints =
      (collectTimestamps req.variableMapping).length ∧
    ((loopStateAfter m badVal req
        (collectTimestamps req.variableMapping).length).validPoints = 0 →
      (startComputation m badVal cancel req outputSeries).1 =
        Event.started ::
          (loopStateAfter m badVal req
            (collectTimestamps req.variableMapping).length).progressReports.map
            Event.progress ++
          [Event.failed (degenerateMsg (loopStateAfter m badVal req
            (collectTimestamps req.variableMapping).length).skippedPoints)]) ∧
    ((loopStateAfter m badVal req
        (collectTimestamps req.variableMapping).length).validPoints ≠ 0 →
      (startComputation m badVal cancel req outputSeries).1 =
        Event.started ::
          (loopStateAfter m badVal req
            (collectTimestamps req.variableMapping).length).progressReports.map
            Event.progress ++
          [Event.progress 100, Event.complete]) := by
  have hls : loopStateAfter m badVal req
      (collectTimestamps req.variableMapping).length =
      runSteps (loopParamsOf m badVal req) 0
        (collectTimestamps req.variableMapping) initialLoopState := by
    rw [loopStateAfter, List.take_length]
  rw [startComputation, hok]
  have hrun := runLoop_no_cancel (loopParamsOf m badVal req) cancel
    (collectTimestamps req.variableMapping) 0 initialLoopState
    (fun j _ _ => hnc j)
  simp only [hrun, hls]
  refine ⟨?_, ?_, ?_, ?_⟩
  · split
    · rename_i hcond
      simp at hcond
    · split <;> rfl
  · rw [runSteps_tally]
    simp [initialLoopState]
  · intro h0
    simp [h0]
  · intro h0
    simp [h0]


/-- Counterexample to C3 as stated: two completed runs with different
valid-point counts terminate in identical `Event.complete` notifications —
`computationComplete()` is parameterless, so the Completed outcome cannot
carry the valid and skipped counts (they are only logged). -/
theorem complete_signal_carries_no_counts :
    (startComputation ratCMath noneBad noCancel reqTwoPoints
        outEmpty).1.getLast? = some Event.complete ∧
    (startComputation ratCMath noneBad noCancel reqOnePoint
        outEmpty).1.getLast? = some Event.complete ∧
    (startComputation ratCMath noneBad noCancel reqTwoPoints
        outEmpty).2.data.length = 2 ∧
    (startComputation ratCMath noneBad noCancel reqOnePoint
        outEmpty).2.data.length = 1 ∧
    (startComputation ratCMath noneBad noCancel reqTwoPoints
        outEmpty).1.getLast? =
      (startComputation ratCMath noneBad noCancel reqOnePoint
        outEmpty).1.getLast? := by
  refine ⟨by decide, by decide, by decide, by decide, by decide⟩


/-- Witness for `completion_reporting`: the division-by-zero request skips
both union timestamps and fails with skip count `2` = union size, with the
output series finalised. -/
theorem completion_reporting_witness :
    (collectTimestamps reqDegen.variableMapping).length = 2 ∧
    (startComputation ratCMath noneBad noCancel reqDegen outEmpty).1 =
      [Event.started, Event.failed (degenerateMsg 2)] ∧
    (startComputation ratCMath noneBad noCancel reqDegen outEmpty).2.updated =
      true := by
  have h := completion_reporting ratCMath noneBad reqDegen outEmpty noCancel
    (by decide) (fun i => rfl)
  refine ⟨by decide, ?_, ?_⟩
  · have h0 : (loopStateAfter ratCMath noneBad reqDegen
        (collectTimestamps reqDegen.variableMapping).length).validPoints = 0 := by
      decide
    exact (h.2.2.1 h0).trans (by decide)
  · rw [h.1]


theorem stepPoint_progress_shape (P : LoopParams) (i : ℕ) (t : ℚ)
    (st : LoopState) :
    ((stepPoint P i t st).progressReports = st.progressReports ∧
     (stepPoint P i t st).lastProgress = st.lastProgress) ∨
    ((((i * 100) / P.n : ℕ) : ℤ) ≠ st.lastProgress ∧
     ((((i * 100) / P.n : ℕ) : ℤ)) % 10 = 0 ∧
     (stepPoint P i t st).progressReports =
       st.progressReports ++ [(((i * 100) / P.n : ℕ) : ℤ)] ∧
     (stepPoint P i t st).lastProgress = (((i * 100) / P.n : ℕ) : ℤ)) := by
  rw [stepPoint]
  repeat' split
  all_goals simp_all
  all_goals (split <;> simp_all)

theorem progressInv_of_eq {n i1 i2 : ℕ} {st st2 : LoopState}
    (h : progressInv n i1 st) (hi : i1 ≤ i2)
    (hr : st2.progressReports = st.progressReports)
    (hl : st2.lastProgress = st.lastProgress) : progressInv n i2 st2 := by
  unfold progressInv at h ⊢
  obtain ⟨hA, hB, hC, hD⟩ := h
  refine ⟨by rw [hr]; exact hA, by rw [hr]; exact hB,
    by rw [hr, hl]; exact hC, ?_⟩
  rcases hD with hD | ⟨j, hj, hjn, hval⟩
  · exact Or.inl (by rw [hl]; exact hD)
  · exact Or.inr ⟨j, by omega, hjn, by rw [hl]; exact hval⟩

theorem progressInv_emit {n i : ℕ} {st st2 : LoopState} (hin : i < n)
    (hinv : progressInv n i st)
    (hne : (((i * 100) / n : ℕ) : ℤ) ≠ st.lastProgress)
    (hmod : ((((i * 100) / n : ℕ) : ℤ)) % 10 = 0)
    (hr : st2.progressReports =
      st.progressReports ++ [(((i * 100) / n : ℕ) : ℤ)])
    (hl : st2.lastProgress = (((i * 100) / n : ℕ) : ℤ)) :
    progressInv n (i + 1) st2 := by
  unfold progressInv at hinv ⊢
  obtain ⟨hA, hB, hC, hD⟩ := hinv
  have hp0 : (0 : ℤ) ≤ (((i * 100) / n : ℕ) : ℤ) := Int.natCast_nonneg _
  have hplt : (((i * 100) / n : ℕ) : ℤ) < 100 := by
    have h1 : (i * 100) / n < 100 :=
      (Nat.div_lt_iff_lt_mul (by omega)).mpr (by omega)
    exact_mod_cast h1
  have hgt : st.lastProgress < (((i * 100) / n : ℕ) : ℤ) := by
    rcases hD with hD | ⟨j, hj, hjn, hval⟩
    · rw [hD]; omega
    · have hle : (j * 100) / n ≤ (i * 100) / n :=
        Nat.div_le_div_right (by omega)
      have hle2 : st.lastProgress ≤ (((i * 100) / n : ℕ) : ℤ) := by
        rw [hval]; exact_mod_cast hle
      exact lt_of_le_of_ne hle2 (Ne.symm hne)
  refine ⟨?_, ?_, ?_, ?_⟩
  · rw [hr]
    rw [List.chain'_append]
    refine ⟨hA, List.chain'_singleton _, ?_⟩
    intro x hx y hy
    simp only [List.head?_cons, Option.mem_def, Option.some.injEq] at hy
    subst hy
    cases hrep : st.progressReports with
    | nil => rw [hrep] at hx; simp at hx
    | cons a l =>
      have hlast := hC (by rw [hrep]; simp)
      rw [hlast] at hx
      simp only [Option.mem_def, Option.some.injEq] at hx
      exact hx ▸ hgt
  · rw [hr]
    intro q hq
    rcases List.mem_append.mp hq with hq | hq
    · exact hB q hq
    · simp only [List.mem_singleton] at hq
      subst hq
      exact ⟨hmod, hp0, hplt⟩
  · intro _
    rw [hr, hl]
    exact List.getLast?_concat _
  · exact Or.inr ⟨i, by omega, hin, hl⟩

theorem stepPoint_progress_inv (P : LoopParams) (i : ℕ) (t : ℚ)
    (st : LoopState) (hin : i < P.n) (hinv : progressInv P.n i st) :
    progressInv P.n (i + 1) (stepPoint P i t st) := by
  rcases stepPoint_progress_shape P i t st with ⟨hr, hl⟩ | ⟨hne, hmod, hr, hl⟩
  · exact progressInv_of_eq hinv (by omega) hr hl
  · exact progressInv_emit hin hinv hne hmod hr hl

theorem runSteps_progress_inv (P : LoopParams) :
    ∀ (l : List ℚ) (i : ℕ) (st : LoopState), i + l.length ≤ P.n →
      progressInv P.n i st →
      progressInv P.n (i + l.length) (runSteps P i l st) := by
  intro l
  induction l with
  | nil => intro i st _ h; simpa [runSteps] using h
  | cons t rest ih =>
    intro i st hb hinv
    rw [runSteps]
    have hin : i < P.n := by
      simp only [List.length_cons] at hb
      omega
    have h2 := ih (i + 1) (stepPoint P i t st)
      (by simp only [List.length_cons] at hb ⊢; omega)
      (stepPoint_progress_inv P i t st hin hinv)
    simpa [List.length_cons, Nat.add_comm, Nat.add_assoc, Nat.add_left_comm]
      using h2

theorem chain_mult10_length_le (l : List ℤ)
    (hchain : List.Chain' (· < ·) l)
    (hmem : ∀ q ∈ l, q % 10 = 0 ∧ 0 ≤ q ∧ q < 100) : l.length ≤ 10 := by
  have hpw : List.Pairwise (· < ·) l := List.chain'_iff_pairwise.mp hchain
  have hnd : l.Nodup := hpw.imp (fun h => ne_of_lt h)
  have hsub : l.toFinset ⊆
      Finset.image (fun k : ℕ => (10 * k : ℤ)) (Finset.range 10) := by
    intro q hq
    rw [List.mem_toFinset] at hq
    obtain ⟨hm, h0, h100⟩ := hmem q hq
    rw [Finset.mem_image]
    refine ⟨q.toNat / 10, ?_, ?_⟩
    · rw [Finset.mem_range]; omega
    · omega
  have hcard := Finset.card_le_card hsub
  rw [List.toFinset_card_of_nodup hnd] at hcard
  calc l.length ≤ (Finset.image (fun k : ℕ => (10 * k : ℤ))
        (Finset.range 10)).card := hcard
    _ ≤ (Finset.range 10).card := Finset.card_image_le
    _ = 10 := Finset.card_range 10

theorem progressValues_map_progress (rep : List ℤ) :
    progressValues (rep.map Event.progress) = rep := by
  rw [progressValues, List.filterMap_map]
  exact List.filterMap_some rep

theorem progressValues_run (rep : List ℤ) (tailEv : List Event) :
    progressValues (Event.started :: rep.map Event.progress ++ tailEv) =
      rep ++ progressValues tailEv := by
  have h1 : progressValues (Event.started :: rep.map Event.progress ++ tailEv) =
      progressValues (rep.map Event.progress) ++ progressValues tailEv := by
    simp only [progressValues, List.filterMap_cons, List.filterMap_append]
  rw [h1, progressValues_map_progress]


theorem progress_props_failed (rep : List ℤ) (msg : String)
    (hA : List.Chain' (· < ·) rep)
    (hB : ∀ q ∈ rep, q % 10 = 0 ∧ 0 ≤ q ∧ q < 100) :
    List.Chain' (· < ·) (progressValues
      (Event.started :: rep.map Event.progress ++ [Event.failed msg])) ∧
    (progressValues
      (Event.started :: rep.map Event.progress ++ [Event.failed msg])).length ≤ 11 ∧
    (∀ q ∈ progressValues
      (Event.started :: rep.map Event.progress ++ [Event.failed msg]),
      q % 10 = 0 ∧ 0 ≤ q ∧ q ≤ 100) ∧
    ((Event.started :: rep.map Event.progress ++
        [Event.failed msg]).getLast? = some Event.complete →
      (progressValues (Event.started :: rep.map Event.progress ++
        [Event.failed msg])).getLast? = some 100) := by
  have hpv : progressValues
      (Event.started :: rep.map Event.progress ++ [Event.failed msg]) = rep := by
    rw [progressValues_run]
    simp [progressValues, List.filterMap_cons]
  refine ⟨by rw [hpv]; exact hA, ?_, ?_, ?_⟩
  · rw [hpv]
    have := chain_mult10_length_le rep hA hB
    omega
  · rw [hpv]
    intro q hq
    obtain ⟨h1, h2, h3⟩ := hB q hq
    exact ⟨h1, h2, le_of_lt h3⟩
  · intro h
    rw [List.getLast?_concat] at h
    simp at h

theorem progress_props_success (rep : List ℤ)
    (hA : List.Chain' (· < ·) rep)
    (hB : ∀ q ∈ rep, q % 10 = 0 ∧ 0 ≤ q ∧ q < 100) :
    List.Chain' (· < ·) (progressValues
      (Event.started :: rep.map Event.progress ++
        [Event.progress 100, Event.complete])) ∧
    (progressValues (Event.started :: rep.map Event.progress ++
      [Event.progress 100, Event.complete])).length ≤ 11 ∧
    (∀ q ∈ progressValues (Event.started :: rep.map Event.progress ++
      [Event.progress 100, Event.complete]),
      q % 10 = 0 ∧ 0 ≤ q ∧ q ≤ 100) ∧
    ((Event.started :: rep.map Event.progress ++
        [Event.progress 100, Event.complete]).getLast? = some Event.complete →
      (progressValues (Event.started :: rep.map Event.progress ++
        [Event.progress 100, Event.complete])).getLast? = some 100) := by
  have hpv : progressValues (Event.started :: rep.map Event.progress ++
      [Event.progress 100, Event.complete]) = rep ++ [100] := by
    rw [progressValues_run]
    simp [progressValues, List.filterMap_cons]
  refine ⟨?_, ?_, ?_, ?_⟩
  · rw [hpv, List.chain'_append]
    refine ⟨hA, List.chain'_singleton _, ?_⟩
    intro x hx y hy
    simp only [List.head?_cons, Option.mem_def, Option.some.injEq] at hy
    subst hy
    have hxm : x ∈ rep := List.mem_of_mem_getLast? hx
    exact (hB x hxm).2.2
  · rw [hpv]
    have := chain_mult10_length_le rep hA hB
    simp only [List.length_append, List.length_singleton]
    omega
  · rw [hpv]
    intro q hq
    rcases List.mem_append.mp hq with hq | hq
    · obtain ⟨h1, h2, h3⟩ := hB q hq
      exact ⟨h1, h2, le_of_lt h3⟩
    · simp only [List.mem_singleton] at hq
      subst hq
      norm_num
  · intro _
    rw [hpv]
    exact List.getLast?_concat _



/-- C4 (amended): in every run, the emitted progress values are strictly
increasing (hence monotonically non-decreasing) multiples of ten between `0`
and `100`, there are at most 11 emissions (at most 10 at the 10%-boundaries
of the iteration index over the union size during the loop, each at most
`90`, plus the final `100`), and a successful run culminates in the value
`100`. -/
theorem progress_monotone_bounded (m : CMath) (badVal : ℚ → Bool)
    (cancel : ℕ → Bool) (req : Request) (outputSeries : MathDataSeries) :
    List.Chain' (· < ·)
      (progressValues (startComputation m badVal cancel req outputSeries).1) ∧
    (progressValues
      (startComputation m badVal cancel req outputSeries).1).length ≤ 11 ∧
    (∀ q ∈ progressValues (startComputation m badVal cancel req outputSeries).1,
      q % 10 = 0 ∧ 0 ≤ q ∧ q ≤ 100) ∧
    ((startComputation m badVal cancel req outputSeries).1.getLast? =
        some Event.complete →
      (progressValues
        (startComputation m badVal cancel req outputSeries).1).getLast? =
        some 100) := by
  rw [startComputation]
  cases hcf : checkFailure req with
  | some msg =>
    refine ⟨?_, ?_, ?_, ?_⟩
    · simp [progressValues, List.filterMap_cons]
    · simp [progressValues, List.filterMap_cons]
    · simp [progressValues, List.filterMap_cons]
    · intro h
      simp at h
  | none =>
    have hinv0 : progressInv (loopParamsOf m badVal req).n 0 initialLoopState := by
      unfold progressInv
      exact ⟨List.chain'_nil, by simp [initialLoopState],
        by simp [initialLoopState], Or.inl rfl⟩
    by_cases hex : ∃ j, j < (collectTimestamps req.variableMapping).length ∧
        cancel j = true
    · obtain ⟨k0, hk0n, hk0c⟩ := hex
      have hexm : ∃ j, cancel j = true := ⟨k0, hk0c⟩
      have hkc : cancel (Nat.find hexm) = true := Nat.find_spec hexm
      have hkmin : ∀ j, j < Nat.find hexm → cancel j = false := by
        intro j hj
        have hm := Nat.find_min hexm hj
        simpa using hm
      have hkn : Nat.find hexm < (collectTimestamps req.variableMapping).length :=
        lt_of_le_of_lt (Nat.find_min' hexm hk0c) hk0n
      have hrun := runLoop_stops (loopParamsOf m badVal req) cancel
        (collectTimestamps req.variableMapping) 0 (Nat.find hexm)
        initialLoopState (Nat.zero_le _) (by simpa using hkn) hkc
        (fun j _ hj => hkmin j hj)
      have hbound : 0 + ((collectTimestamps req.variableMapping).take
          (Nat.find hexm - 0)).length ≤ (loopParamsOf m badVal req).n := by
        simp [loopParamsOf, List.length_take]
      have hinv := runSteps_progress_inv (loopParamsOf m badVal req)
        ((collectTimestamps req.variableMapping).take (Nat.find hexm - 0)) 0
        initialLoopState hbound hinv0
      unfold progressInv at hinv
      obtain ⟨hA, hB, hC2, hD2⟩ := hinv
      simp only [hrun]
      split
      · exact progress_props_failed _ _ hA hB
      · rename_i hcond
        simp at hcond
    · push_neg at hex
      have hnc : ∀ j, 0 ≤ j → j < 0 + (collectTimestamps req.variableMapping).length →
          cancel j = false := by
        intro j _ hj
        have hj2 := hex j (by simpa using hj)
        simpa using hj2
      have hrun := runLoop_no_cancel (loopParamsOf m badVal req) cancel
        (collectTimestamps req.variableMapping) 0 initialLoopState hnc
      have hbound : 0 + (collectTimestamps req.variableMapping).length ≤
          (loopParamsOf m badVal req).n := by
        simp [loopParamsOf]
      have hinv := runSteps_progress_inv (loopParamsOf m badVal req)
        (collectTimestamps req.variableMapping) 0 initialLoopState hbound hinv0
      unfold progressInv at hinv
      obtain ⟨hA, hB, hC2, hD2⟩ := hinv
      simp only [hrun]
      split
      · rename_i hcond
        simp at hcond
      · split
        · exact progress_props_failed _ _ hA hB
        · exact progress_props_success _ hA hB



/-- Counterexample to C4 as stated: a ten-timestamp run with every point
valid emits the eleven values `0,10,...,90` (in the loop) and `100` (after
it), exceeding the claimed bound of at most 10 emissions. -/
theorem progress_eleven_emissions :
    (progressValues (startComputation ratCMath noneBad noCancel reqTen
      outEmpty).1).length = 11 ∧
    progressValues (startComputation ratCMath noneBad noCancel reqTen
      outEmpty).1 = [0, 10, 20, 30, 40, 50, 60, 70, 80, 90, 100] := by
  refine ⟨by decide, by decide⟩


/-- Witness for `progress_monotone_bounded`: the successful ten-point run
ends in `complete`, and its progress sequence culminates in `100`. -/
theorem progress_monotone_bounded_witness :
    (startComputation ratCMath noneBad noCancel reqTen outEmpty).1.getLast? =
      some Event.complete ∧
    (progressValues (startComputation ratCMath noneBad noCancel reqTen
      outEmpty).1).getLast? = some 100 :=
  ⟨by decide,
   (progress_monotone_bounded ratCMath noneBad noCancel reqTen outEmpty).2.2.2
     (by decide)⟩

end Lumberjack
